import Mathlib

/-!
Shallow embedding of `angular_dynamic_forms/rest.py` (the layout resolution
and decoration pipeline of django-angular-dynamic-form).

Python values flowing through the pipeline are JSON-like data: dicts with
string keys (ordered, unique keys), lists, tuples, strings, ints, booleans
and `None`.  We embed them as the inductive type `Value`; dicts become
insertion-ordered association lists.  Callable layout/default values are not
modelled (the `callable(v)` branch of `_transform_layout` is then the
identity), and Python string methods are modelled on ASCII identifiers.
Fallible code returns `Except PyErr`; recursive procedures take a fuel
argument, with `PyErr.recursionError` mirroring Python's `RecursionError`
when the fuel runs out.
-/

namespace AngularDynamicForms

inductive Value : Type where
  | none : Value
  | b : Bool → Value
  | n : Int → Value
  | s : String → Value
  | list : List Value → Value
  | tuple : List Value → Value
  | dict : List (String × Value) → Value

abbrev Record := List (String × Value)
abbrev Fields := List (String × Record)
abbrev DefaultsMap := List (String × Record)

/-- Python exceptions that the embedded code can raise. -/
inductive PyErr : Type where
  | keyError (k : String)
  | typeError
  | attributeError
  | notImplementedError
  | recursionError
deriving DecidableEq

/-- First-match lookup in an association list (Python `d[k]` / `d.get(k)`
on a dict with unique keys). -/
def assocLookup {α : Type} : List (String × α) → String → Option α
  | [], _ => Option.none
  | (k0, v) :: rest, k => if k0 = k then some v else assocLookup rest k

/-- Replace the value at the first occurrence of a key, keeping its
position (Python `d[k] = v` when `k` is already present). -/
def assocUpdate {α : Type} : List (String × α) → String → α → List (String × α)
  | [], _, _ => []
  | (k0, v0) :: rest, k, v =>
      if k0 = k then (k0, v) :: rest else (k0, v0) :: assocUpdate rest k v

/-- Remove the first occurrence of a key (Python `del d[k]`). -/
def assocErase {α : Type} : List (String × α) → String → List (String × α)
  | [], _ => []
  | (k0, v0) :: rest, k =>
      if k0 = k then rest else (k0, v0) :: assocErase rest k

/-- Python dict assignment `d[k] = v`: update in place if the key exists,
else append at the end. -/
def pyInsert {α : Type} (m : List (String × α)) (k : String) (v : α) :
    List (String × α) :=
  if (assocLookup m k).isSome then assocUpdate m k v else m ++ [(k, v)]

/-- Python `d.update(rec)`: assign every item of `rec` into `d`, left to
right. -/
def pyUpdate (m rec : Record) : Record :=
  rec.foldl (fun acc kv => pyInsert acc kv.1 kv.2) m

/-- Python `d[k]` on a dict: the value, or `KeyError`. -/
def getKey (l : Record) (k : String) : Except PyErr Value :=
  match assocLookup l k with
  | some v => Except.ok v
  | Option.none => Except.error (PyErr.keyError k)

/-- Python truthiness of an embedded value. -/
def pyTruthy : Value → Bool
  | Value.none => false
  | Value.b x => x
  | Value.n x => decide (x ≠ 0)
  | Value.s x => decide (x ≠ "")
  | Value.list xs => !xs.isEmpty
  | Value.tuple xs => !xs.isEmpty
  | Value.dict l => !l.isEmpty

/-- Sequencing of fallible computations: propagate the exception, else
continue.  (`Except.bind` spelled as a plain match, so that it unfolds
by a definitional equation.) -/
def exBind {α β : Type} (e : Except PyErr α) (g : α → Except PyErr β) : Except PyErr β :=
  match e with
  | Except.error err => Except.error err
  | Except.ok a => g a

/-- Effectful map over a list (a Python list comprehension whose body
may raise). -/
def exMap {α β : Type} (g : α → Except PyErr β) : List α → Except PyErr (List β)
  | [] => Except.ok []
  | a :: rest =>
      exBind (g a) fun b =>
      exBind (exMap g rest) fun bs =>
      Except.ok (b :: bs)

/-! Python string methods on ASCII identifiers, used by Private `camel`. -/

/-- ASCII case lowering of one character (Python `str.lower`, per char). -/
def asciiLower : Char → Char
  | 'A' => 'a' | 'B' => 'b' | 'C' => 'c' | 'D' => 'd' | 'E' => 'e'
  | 'F' => 'f' | 'G' => 'g' | 'H' => 'h' | 'I' => 'i' | 'J' => 'j'
  | 'K' => 'k' | 'L' => 'l' | 'M' => 'm' | 'N' => 'n' | 'O' => 'o'
  | 'P' => 'p' | 'Q' => 'q' | 'R' => 'r' | 'S' => 's' | 'T' => 't'
  | 'U' => 'u' | 'V' => 'v' | 'W' => 'w' | 'X' => 'x' | 'Y' => 'y'
  | 'Z' => 'z'
  | c => c

/-- ASCII case raising of one character (Python `str.upper`, per char). -/
def asciiUpper : Char → Char
  | 'a' => 'A' | 'b' => 'B' | 'c' => 'C' | 'd' => 'D' | 'e' => 'E'
  | 'f' => 'F' | 'g' => 'G' | 'h' => 'H' | 'i' => 'I' | 'j' => 'J'
  | 'k' => 'K' | 'l' => 'L' | 'm' => 'M' | 'n' => 'N' | 'o' => 'O'
  | 'p' => 'P' | 'q' => 'Q' | 'r' => 'R' | 's' => 'S' | 't' => 'T'
  | 'u' => 'U' | 'v' => 'V' | 'w' => 'W' | 'x' => 'X' | 'y' => 'Y'
  | 'z' => 'Z'
  | c => c

/-- Worker for Python `str.title`: alphabetic characters following a
non-alphabetic one are raised, the rest are lowered. -/
def titleGo : Bool → List Char → List Char
  | _, [] => []
  | prevAlpha, c :: rest =>
      if c.isAlpha then
        (if prevAlpha then asciiLower c else asciiUpper c) :: titleGo true rest
      else c :: titleGo false rest

/-- Python `str.title` on a character list. -/
def pyTitle (cs : List Char) : List Char := titleGo false cs

/-- Python `snake_str.split('_')`: split on every underscore, keeping
empty parts (so the result is always non-empty). -/
def splitUnd : List Char → List (List Char)
  | [] => [[]]
  | c :: rest =>
      let r := splitUnd rest
      if c = '_' then [] :: r
      else
        match r with
        | [] => [[c]]
        | p :: ps => (c :: p) :: ps

/-- Private helper `camel` of rest.py on a character list:
`first.lower()` joined with the title-cased remaining parts, or the
input unchanged when it has no underscore. -/
def camelL (cs : List Char) : List Char :=
  if '_' ∈ cs then
    match splitUnd cs with
    | [] => []
    | first :: others => first.map asciiLower ++ (others.map pyTitle).flatten
  else cs

/-- Private helper `camel` of rest.py on a `String`. -/
def camelS (st : String) : String := String.mk (camelL st.data)

/-!  `AngularFormMixin._convert_camel_case`: recursively rewrite every
dict key through `camel`, in place.  The iteration runs over a snapshot
of the items; a renamed key is deleted and reassigned (landing either on
an existing key, overwriting its value in place, or at the end of the
dict).  `convGo` threads the current dict and the list of keys whose
value object was replaced by such a reassignment (those entries are
detached from the snapshot's value objects, so the in-place conversion
of the snapshot value no longer touches the dict). -/
def convGo (g : Value → Except PyErr Value) :
    List (String × Value) → Record → List String → Except PyErr Record
  | [], x, _ => Except.ok x
  | (k, v) :: rest, x, ow =>
      exBind (g v) fun v' =>
      let ck := camelS k
      if ck = k then
        if k ∈ ow then convGo g rest x ow
        else convGo g rest (pyInsert x k v') ow
      else convGo g rest (pyInsert (assocErase x k) ck v') (ck :: ow)

/-- `AngularFormMixin._convert_camel_case`, fueled. -/
def convert : Nat → Value → Except PyErr Value
  | 0, _ => Except.error PyErr.recursionError
  | f+1, Value.dict l =>
      exBind (convGo (convert f) l l []) fun r => Except.ok (Value.dict r)
  | f+1, Value.list xs =>
      exBind (exMap (convert f) xs) fun rs => Except.ok (Value.list rs)
  | f+1, Value.tuple xs =>
      exBind (exMap (convert f) xs) fun rs => Except.ok (Value.tuple rs)
  | _+1, v => Except.ok v

/-- Well-formedness of an embedded Python object: every dict has unique
keys (a Python dict cannot carry a duplicate key).  Fueled like
`convert`. -/
def wfB : Nat → Value → Bool
  | 0, _ => false
  | f+1, Value.dict l =>
      decide (l.map Prod.fst).Nodup && l.all (fun kv => wfB f kv.2)
  | f+1, Value.list xs => xs.all (fun v => wfB f v)
  | f+1, Value.tuple xs => xs.all (fun v => wfB f v)
  | _+1, _ => true

/-! The Layout Transformer: `AngularFormMixin._transform_layout`. -/

/-- Kind of the underlying Django model column for a field id
(`model._meta.get_field`): a `TextField` or some other field class. -/
inductive ColKind : Type where
  | textField : ColKind
  | otherField : ColKind
deriving DecidableEq

/-- The model schema: the column for a field name, or `FieldDoesNotExist`. -/
abbrev Schema := String → Option ColKind

/-- The defaults-merge step at the top of `_transform_layout`:
`if 'id' in layout and layout['id'] in form_defaults:
layout.update(form_defaults[layout['id']])`.  A non-hashable id value
(list or dict) raises `TypeError` on the `in` test. -/
def mergeDefaults (fd : DefaultsMap) (l : Record) : Except PyErr Record :=
  match assocLookup l "id" with
  | some (Value.s i) =>
      match assocLookup fd i with
      | some rec => Except.ok (pyUpdate l rec)
      | Option.none => Except.ok l
  | some (Value.list _) => Except.error PyErr.typeError
  | some (Value.dict _) => Except.error PyErr.typeError
  | _ => Except.ok l

/-- `AngularFormMixin._transform_layout`, fueled.  Dict nodes are merged
with the defaults record for their id, dispatched on their `type` key
(defaulting to `"string"`); fieldset/group recurse into `controls`,
columns recurse into `columns` storing the result under `controls`;
string-typed nodes are upgraded to `"textarea"` when their id is backed
by a long-text column, and left alone when the schema has no such field.
Lists and tuples are transformed element-wise, wrapped as a group node
unless `wrap_array` is false; bare strings become `{id: ...}` nodes;
anything else raises `NotImplementedError`. -/
def transform : Nat → Schema → DefaultsMap → Value → Bool → Except PyErr Value
  | 0, _, _, _, _ => Except.error PyErr.recursionError
  | f+1, sch, fd, Value.dict l0, _ =>
      exBind (mergeDefaults fd l0) fun l =>
      match (assocLookup l "type").getD (Value.s "string") with
      | Value.s tn =>
          if tn = "fieldset" ∨ tn = "group" then
            exBind (getKey l "controls") fun c =>
            exBind (transform f sch fd c false) fun c' =>
            Except.ok (Value.dict (pyInsert l "controls" c'))
          else if tn = "columns" then
            exBind (getKey l "columns") fun c =>
            exBind (transform f sch fd c false) fun c' =>
            Except.ok (Value.dict (assocErase (pyInsert l "controls" c') "columns"))
          else if tn = "string" then
            exBind (getKey l "id") fun idv =>
            match idv with
            | Value.s i =>
                match sch i with
                | some ColKind.textField =>
                    Except.ok (Value.dict (pyInsert l "type" (Value.s "textarea")))
                | _ => Except.ok (Value.dict l)
            | Value.list _ => Except.error PyErr.typeError
            | Value.dict _ => Except.error PyErr.typeError
            | _ => Except.ok (Value.dict l)
          else Except.ok (Value.dict l)
      | _ => Except.ok (Value.dict l)
  | f+1, sch, fd, Value.list xs, wrap =>
      exBind (exMap (fun v => transform f sch fd v true) xs) fun cs =>
      if wrap then
        Except.ok (Value.dict [("type", Value.s "group"), ("controls", Value.list cs)])
      else Except.ok (Value.list cs)
  | f+1, sch, fd, Value.tuple xs, wrap =>
      exBind (exMap (fun v => transform f sch fd v true) xs) fun cs =>
      if wrap then
        Except.ok (Value.dict [("type", Value.s "group"), ("controls", Value.list cs)])
      else Except.ok (Value.list cs)
  | f+1, sch, fd, Value.s str, _ =>
      transform f sch fd (Value.dict [("id", Value.s str)]) true
  | _+1, _, _, _, _ => Except.error PyErr.notImplementedError

/-- Whether a transformer node's effective type selects one of the
container branches of `_transform_layout`
(`in ('fieldset', 'group')` or `== 'columns'`). -/
def transformCont : Value → Bool
  | Value.s tn => tn = "fieldset" || tn = "group" || tn = "columns"
  | _ => false

/-! The Layout Resolver: `AngularFormMixin._get_form_layout` and
`_get_field_layout`. -/

/-- Worker for the auto-layout comprehension
`[self._get_field_layout(n, fields[n]) for n in fields
  if not fields[n]['read_only']]`, with `_get_field_layout` returning
`{'id': field_name}`. -/
def synthGo (full : Fields) : Fields → Except PyErr (List Value)
  | [] => Except.ok []
  | (nm, _) :: rest =>
      exBind (match assocLookup full nm with
        | some i => Except.ok i
        | Option.none => Except.error (PyErr.keyError nm)) fun info =>
      exBind (getKey info "read_only") fun ro =>
      exBind (synthGo full rest) fun tail =>
      Except.ok (if pyTruthy ro then tail else Value.dict [("id", Value.s nm)] :: tail)

/-- Per-viewset configuration carried by the `AngularFormMixin` class
attributes. -/
structure LinkedForm : Type where
  form_id : String
  link_id : Option String

structure Cfg : Type where
  form_layout : Value
  form_title : Value
  form_defaults : DefaultsMap
  form_layouts : List (String × Value)
  form_titles : List (String × Value)
  form_defaults_map : List (String × DefaultsMap)
  linked_forms : List (String × LinkedForm)

/-- `AngularFormMixin._get_form_layout`: select the raw layout and the
defaults map (per-identifier when a form name is given, raising
`KeyError` on a missing layout entry; a missing or falsy defaults entry
becomes the empty map), synthesize the layout from the non-read-only
fields when none is configured, and transform it with
`wrap_array=False`. -/
def getFormLayout (fuel : Nat) (sch : Schema) (cfg : Cfg) (fields : Fields)
    (form_name : String) : Except PyErr Value :=
  exBind (if form_name ≠ "" then
      exBind (match assocLookup cfg.form_layouts form_name with
        | some v => Except.ok v
        | Option.none => Except.error (PyErr.keyError form_name)) fun fl =>
      Except.ok (fl, (assocLookup cfg.form_defaults_map form_name).getD [])
    else Except.ok (cfg.form_layout, cfg.form_defaults)) fun sel =>
  exBind (if pyTruthy sel.1 then Except.ok sel.1
    else exBind (synthGo fields fields) fun nodes => Except.ok (Value.list nodes))
    fun layout =>
  transform fuel sch sel.2 layout false

/-! The Layout Decorator: `AngularFormMixin._decorate_layout` (the
`_decorate_layout_item` hook is `pass`). -/

/-- One entry of the choice-normalization comprehension:
`{'label': x.get('label', None) or x.get('display_name', None),
  'value': x['value']}`.  A non-dict entry has no `.get` attribute. -/
def decorateChoiceEntry : Value → Except PyErr Value
  | Value.dict d =>
      exBind (getKey d "value") fun v =>
      Except.ok (Value.dict
        [("label",
          (let a := (assocLookup d "label").getD Value.none
           if pyTruthy a then a else (assocLookup d "display_name").getD Value.none)),
         ("value", v)])
  | _ => Except.error PyErr.attributeError

/-- The control-type synonym re-tagging of `_decorate_layout`:
`if md['type'] == 'choice': md['type'] = 'select'`, given the looked-up
type value. -/
def selectRewrite (md : Record) (tv : Value) : Record :=
  match tv with
  | Value.s tn => if tn = "choice" then pyInsert md "type" (Value.s "select") else md
  | _ => md

/-- Whether a decorator node is a container:
`layout.get('type', None) in ('fieldset', 'columns', 'group')`. -/
def decorContainer (t : Value) : Bool :=
  match t with
  | Value.s tn => tn = "fieldset" || tn = "columns" || tn = "group"
  | _ => false

/-- `AngularFormMixin._decorate_layout`, fueled.  Lists decorate
element-wise; containers decorate their `controls`; leaves start from a
copy of the field-metadata record for their id (empty when the id is
unknown; a non-hashable id raises `TypeError`), overlay the layout node,
rewrite type `"choice"` to `"select"`, and normalize a truthy `choices`
list.  Any other value falls off the `if`/`elif` chain and returns
`None`. -/
def decorate : Nat → Fields → Value → Except PyErr Value
  | 0, _, _ => Except.error PyErr.recursionError
  | f+1, fi, Value.list xs =>
      exBind (exMap (decorate f fi) xs) fun rs => Except.ok (Value.list rs)
  | f+1, fi, Value.dict l =>
      if decorContainer ((assocLookup l "type").getD Value.none) then
        exBind (getKey l "controls") fun c =>
        exBind (decorate f fi c) fun c' =>
        Except.ok (Value.dict (pyInsert l "controls" c'))
      else
        exBind (getKey l "id") fun idv =>
        exBind (match idv with
          | Value.s i => Except.ok ((assocLookup fi i).getD [])
          | Value.list _ => Except.error PyErr.typeError
          | Value.dict _ => Except.error PyErr.typeError
          | _ => Except.ok ([] : Record)) fun mdBase =>
        let md0 := pyUpdate mdBase l
        exBind (getKey md0 "type") fun tv =>
        let md := selectRewrite md0 tv
        let ch := (assocLookup md "choices").getD Value.none
        if pyTruthy ch then
          match ch with
          | Value.list entries =>
              exBind (exMap decorateChoiceEntry entries) fun es =>
              Except.ok (Value.dict (pyInsert md "choices" (Value.list es)))
          | _ => Except.error PyErr.typeError
        else Except.ok (Value.dict md)
  | _+1, _, _ => Except.ok Value.none

/-! Title, actions and URL: `_get_form_title`, `_get_actions`,
`_get_url_by_form_id` (`gettext` is the identity). -/

/-- `AngularFormMixin._get_form_title`, verbatim from the source: the
local selection of a per-identifier title is used only as a truthiness
test, after which `self.form_title` itself is subscripted with
`'edit'`/`'create'` (subscripting a non-dict raises `TypeError`). -/
def getFormTitle (cfg : Cfg) (has_instance : Value) (form_name : String)
    (verbose_name : String) : Except PyErr Value :=
  let ft := if form_name ≠ "" ∧ ¬cfg.form_titles.isEmpty then
      (assocLookup cfg.form_titles form_name).getD Value.none
    else cfg.form_title
  if pyTruthy ft then
    match cfg.form_title with
    | Value.dict l => getKey l (if pyTruthy has_instance then "edit" else "create")
    | _ => Except.error PyErr.typeError
  else
    Except.ok (Value.s ((if pyTruthy has_instance then "Editing " else "Creating a new ")
      ++ verbose_name))

/-- `AngularFormMixin._get_actions`. -/
def getActions (hi : Bool) : Value :=
  if hi then
    Value.list
      [Value.dict [("id", Value.s "save"), ("color", Value.s "primary"),
                   ("label", Value.s "Save")],
       Value.dict [("id", Value.s "cancel"), ("label", Value.s "Cancel"),
                   ("cancel", Value.b true)]]
  else
    Value.list
      [Value.dict [("id", Value.s "create"), ("color", Value.s "primary"),
                   ("label", Value.s "Create")],
       Value.dict [("id", Value.s "cancel"), ("label", Value.s "Cancel"),
                   ("cancel", Value.b true)]]

/-- `AngularFormMixin._get_url_by_form_id` with the route table (the
reflective scan for a method tagged `angular_form_id`) supplied as an
external mapping: empty id gives the empty path, a found route path gets
a trailing slash appended when missing. -/
def urlByFormId (routes : String → Option String) (fid : String) : String :=
  if fid = "" then ""
  else
    match routes fid with
    | Option.none => ""
    | some p =>
        match p.data.getLast? with
        | some c => if c = '/' then p else p ++ "/"
        | Option.none => p ++ "/"

/-! The Linked-Form Delegator: `AngularFormMixin._linked_form_metadata`. -/

/-- Suffix test for the regular expression `/form(/[^/]+)?/?$` applied at
one start position: the remainder after `/form` is empty, a lone slash,
or a slash followed by one non-empty slash-free segment with an optional
trailing slash. -/
def segOk (seg : List Char) : Bool :=
  !seg.isEmpty &&
    (!seg.contains '/' ||
      (seg.getLast? == some '/' && !seg.dropLast.contains '/' && !seg.dropLast.isEmpty))

def formSuffixMatch : List Char → Bool
  | '/' :: 'f' :: 'o' :: 'r' :: 'm' :: rest =>
      (match rest with
       | [] => true
       | '/' :: seg => seg.isEmpty || segOk seg
       | _ => false)
  | _ => false

/-- `re.sub(r'/form(/[^/]+)?/?$', '', path)`: delete the leftmost suffix
matching the pattern, if any. -/
def subFormSuffix : List Char → List Char
  | [] => []
  | c :: rest =>
      if formSuffixMatch (c :: rest) then [] else c :: subFormSuffix rest

/-- The delegate base path built by `_linked_form_metadata`:
`path = re.sub(r'/form(/[^/]+)?/?$', '', request.path)` then
`'%s/%s/' % (path, form_name)`. -/
def linkedBasePath (path : String) (form_name : String) : String :=
  String.mk (subFormSuffix path.data) ++ "/" ++ form_name ++ "/"

/-- The link-record identifier extracted by `_linked_form_metadata`:
`request.GET.get(link_id) or request.data.get(link_id)` when a
`link_id` parameter name is configured, else `None`. -/
def linkIdOf (fd : LinkedForm) (getParam dataParam : String → Option Value) : Value :=
  match fd.link_id with
  | some p =>
      let a := (getParam p).getD Value.none
      if pyTruthy a then a else (dataParam p).getD Value.none
  | Option.none => Value.none

/-! The Form Metadata Assembler: `AngularFormMixin._get_form_metadata`. -/

/-- Result of `_get_form_metadata`: delegation to a linked form's viewset
(recorded as the argument triple passed to the delegate's
`_get_form_metadata`), an `Http404` (surfaced to the HTTP caller as a
404 response with the given message), or the assembled response. -/
inductive Outcome : Type where
  | delegated (hasInstance : Value) (formId : String) (basePath : String)
  | http404 (msg : String)
  | assembled (res : Except PyErr Value)

/-- The assembly part of `_get_form_metadata` (after the linked-form and
404 checks): resolve, decorate and camel-case the layout, then build the
response record.  `fields` is the serializer metadata
(`get_serializer_info`) and `verbose_name` the model's display name. -/
def assemble (fuel : Nat) (sch : Schema) (routes : String → Option String)
    (cfg : Cfg) (fields : Fields) (verbose_name : String) (has_instance : Value)
    (form_name base_path : String) : Except PyErr Value :=
  exBind (getFormLayout fuel sch cfg fields form_name) fun layout0 =>
  exBind (decorate fuel fields layout0) fun layout1 =>
  exBind (convert fuel layout1) fun layout =>
  exBind (getFormTitle cfg has_instance form_name verbose_name) fun title =>
  Except.ok (Value.dict
    [("layout", layout),
     ("formTitle", title),
     ("actions", getActions (pyTruthy has_instance)),
     ("method", Value.s (if pyTruthy has_instance then "patch" else "post")),
     ("hasInitialData", has_instance),
     ("djangoUrl", Value.s (base_path ++ urlByFormId routes form_name))])

/-- `AngularFormMixin._get_form_metadata`: a non-empty form name is first
looked up in the linked-forms table (delegating immediately on a hit),
then `Http404` is raised when no form-layouts table is configured, or
when the table lacks the name; otherwise the response is assembled.
`has_instance` is a Python value (the delegation path passes the link id
here), `requestPath` is `request.path` and `getParam`/`dataParam` are
`request.GET`/`request.data`. -/
def getFormMetadata (fuel : Nat) (sch : Schema) (routes : String → Option String)
    (cfg : Cfg) (fields : Fields) (verbose_name : String) (requestPath : String)
    (getParam dataParam : String → Option Value) (has_instance : Value)
    (form_name base_path : String) : Outcome :=
  if form_name ≠ "" then
    match assocLookup cfg.linked_forms form_name with
    | some fd =>
        Outcome.delegated (linkIdOf fd getParam dataParam) fd.form_id
          (linkedBasePath requestPath form_name)
    | Option.none =>
        if cfg.form_layouts.isEmpty then
          Outcome.http404
            "Form layouts not configured. Please add form_layouts attribute on the viewset class"
        else if (assocLookup cfg.form_layouts form_name).isNone then
          Outcome.http404 ("Form with name " ++ form_name ++ " not found")
        else
          Outcome.assembled
            (assemble fuel sch routes cfg fields verbose_name has_instance form_name base_path)
  else
    Outcome.assembled
      (assemble fuel sch routes cfg fields verbose_name has_instance form_name base_path)

/-- The choice reshaping described by the amended C2 claim: label is the
entry's truthy `label` field if any, else its `display_name` field
(possibly `None`); the value is the entry's `value` field. -/
def reshapeChoice : Value → Value
  | Value.dict d =>
      Value.dict
        [("label",
          (let a := (assocLookup d "label").getD Value.none
           if pyTruthy a then a else (assocLookup d "display_name").getD Value.none)),
         ("value", (assocLookup d "value").getD Value.none)]
  | v => v

/-- Whether a value is a scalar for `_convert_camel_case` (neither a
mapping nor a sequence: the conversion returns it untouched). -/
def isScalar : Value → Bool
  | Value.none => true
  | Value.b _ => true
  | Value.n _ => true
  | Value.s _ => true
  | _ => false

/-- The id carried by a FieldRef node: the string under the `id` key of
a mapping node, if any. -/
def nodeId : Value → Option String
  | Value.dict m =>
      match assocLookup m "id" with
      | some (Value.s i) => some i
      | _ => Option.none
  | _ => Option.none

/-! Association-list lemmas about the Python dict operations. -/

theorem assocLookup_eq_none_of_not_mem {α : Type} {m : List (String × α)} {k : String}
    (h : k ∉ m.map Prod.fst) : assocLookup m k = Option.none := by
  induction m with
  | nil => rfl
  | cons kv rest ih =>
      simp only [List.map_cons, List.mem_cons] at h
      push_neg at h
      simp [assocLookup, Ne.symm h.1, ih h.2]

theorem assocLookup_append {α : Type} (m m2 : List (String × α)) (k : String) :
    assocLookup (m ++ m2) k =
      match assocLookup m k with
      | some v => some v
      | Option.none => assocLookup m2 k := by
  induction m with
  | nil => simp [assocLookup]
  | cons kv rest ih =>
      by_cases h : kv.1 = k
      · simp [assocLookup, h]
      · simp [assocLookup, h, ih]

theorem lookup_assocUpdate {α : Type} (m : List (String × α)) (k k2 : String) (v : α) :
    assocLookup (assocUpdate m k v) k2 =
      if k = k2 then
        (if (assocLookup m k).isSome then some v else Option.none)
      else assocLookup m k2 := by
  induction m with
  | nil => simp [assocUpdate, assocLookup]
  | cons kv rest ih =>
      obtain ⟨k0, v0⟩ := kv
      simp only [assocUpdate, assocLookup]
      by_cases h : k0 = k
      · subst h
        by_cases h2 : k0 = k2 <;> simp [assocLookup, h2]
      · by_cases h2 : k0 = k2
        · subst h2
          have hne : ¬ k = k0 := fun he => h he.symm
          simp [assocLookup, h, hne]
        · simp [assocLookup, h, h2, ih]

theorem lookup_pyInsert {α : Type} (m : List (String × α)) (k k2 : String) (v : α) :
    assocLookup (pyInsert m k v) k2 =
      if k = k2 then some v else assocLookup m k2 := by
  unfold pyInsert
  by_cases hp : (assocLookup m k).isSome
  · simp [hp, lookup_assocUpdate]
  · simp only [hp, if_false, Bool.false_eq_true]
    rw [assocLookup_append]
    by_cases hk : k = k2
    · subst hk
      rcases ho : assocLookup m k with _ | w
      · simp [assocLookup]
      · exact absurd (ho ▸ rfl) hp
    · rcases ho : assocLookup m k2 with _ | w
      · simp [assocLookup, Ne.symm hk, hk]
      · simp [ho, hk]

theorem pyUpdate_cons (m : Record) (k0 : String) (v0 : Value) (rest : Record) :
    pyUpdate m ((k0, v0) :: rest) = pyUpdate (pyInsert m k0 v0) rest := rfl

theorem lookup_pyUpdate_none {rec : Record} {k : String} (m : Record)
    (h : assocLookup rec k = Option.none) :
    assocLookup (pyUpdate m rec) k = assocLookup m k := by
  induction rec generalizing m with
  | nil => rfl
  | cons kv rest ih =>
      obtain ⟨k0, v0⟩ := kv
      simp only [assocLookup] at h
      by_cases hk : k0 = k
      · simp [hk] at h
      · simp only [hk, if_false] at h
        rw [pyUpdate_cons, ih _ h, lookup_pyInsert, if_neg hk]

theorem lookup_pyUpdate_some {rec : Record} {k : String} {v : Value} (m : Record)
    (hnd : (rec.map Prod.fst).Nodup) (h : assocLookup rec k = some v) :
    assocLookup (pyUpdate m rec) k = some v := by
  induction rec generalizing m with
  | nil => simp [assocLookup] at h
  | cons kv rest ih =>
      obtain ⟨k0, v0⟩ := kv
      simp only [List.map_cons, List.nodup_cons] at hnd
      simp only [assocLookup] at h
      by_cases hk : k0 = k
      · simp only [hk, if_true, Option.some.injEq] at h
        subst h
        have hnone : assocLookup rest k = Option.none :=
          assocLookup_eq_none_of_not_mem (hk ▸ hnd.1)
        rw [pyUpdate_cons, lookup_pyUpdate_none _ hnone, lookup_pyInsert, if_pos hk]
      · simp only [hk, if_false] at h
        rw [pyUpdate_cons, ih _ hnd.2 h]

/-! C1: override precedence in the Layout Transformer. -/

/-- C1 counterexample: transforming the FieldRef node
`{id: "x", label: "A"}` with the DefaultsMap `{x: {label: "B", help: "C"}}`
does NOT keep the explicit `label: "A"` — `layout.update(...)` lets the
defaults record overwrite it, so the result carries `label: "B"`
(and gains `help: "C"`). -/
theorem c1_counterexample :
    transform 1 (fun _ => Option.none)
        [("x", [("label", Value.s "B"), ("help", Value.s "C")])]
        (Value.dict [("id", Value.s "x"), ("label", Value.s "A")]) true
      = Except.ok (Value.dict [("id", Value.s "x"), ("label", Value.s "B"),
                               ("help", Value.s "C")])
    ∧ Value.s "B" ≠ Value.s "A" := by
  refine ⟨rfl, ?_⟩
  simp

/-- C1 (amended): for a FieldRef node whose id is a key of the
DefaultsMap (the defaults record not rebinding `id`, the merged type not
selecting a container branch), the transformed node agrees with
`layout.update(defaults_record)` on every key other than `type`: every
key of the defaults record carries the RECORD's value (defaults
overwrite explicit node values), and only keys absent from the record
keep the node's explicit value. -/
theorem c1_amended (f : Nat) (sch : Schema) (fd : DefaultsMap) (l rec : Record)
    (i : String) (w : Bool)
    (hid : assocLookup l "id" = some (Value.s i))
    (hrec : assocLookup fd i = some rec)
    (hnd : (rec.map Prod.fst).Nodup)
    (hri : assocLookup rec "id" = Option.none)
    (ht : transformCont ((assocLookup (pyUpdate l rec) "type").getD (Value.s "string"))
            = false) :
    ∃ m, transform (f+1) sch fd (Value.dict l) w = Except.ok (Value.dict m) ∧
      (∀ k, k ≠ "type" → assocLookup m k = assocLookup (pyUpdate l rec) k) ∧
      (∀ k v, k ≠ "type" → assocLookup rec k = some v → assocLookup m k = some v) ∧
      (∀ k, k ≠ "type" → assocLookup rec k = Option.none →
        assocLookup m k = assocLookup l k) := by
  have hmain : ∃ m, transform (f+1) sch fd (Value.dict l) w = Except.ok (Value.dict m) ∧
      (∀ k, k ≠ "type" → assocLookup m k = assocLookup (pyUpdate l rec) k) := by
    have hmerge : mergeDefaults fd l = Except.ok (pyUpdate l rec) := by
      simp [mergeDefaults, hid, hrec]
    have hMid : assocLookup (pyUpdate l rec) "id" = some (Value.s i) := by
      rw [lookup_pyUpdate_none _ hri, hid]
    rcases hT : (assocLookup (pyUpdate l rec) "type").getD (Value.s "string") with
      _ | bb | nn | tn | xs | xs | ds
    · exact ⟨pyUpdate l rec, by simp [transform, hmerge, exBind, hT], fun k _ => rfl⟩
    · exact ⟨pyUpdate l rec, by simp [transform, hmerge, exBind, hT], fun k _ => rfl⟩
    · exact ⟨pyUpdate l rec, by simp [transform, hmerge, exBind, hT], fun k _ => rfl⟩
    · rw [hT] at ht
      simp only [transformCont, Bool.or_eq_false_iff, decide_eq_false_iff_not] at ht
      by_cases hs : tn = "string"
      · subst hs
        rcases hsch : sch i with _ | ck
        · refine ⟨pyUpdate l rec, ?_, fun k _ => rfl⟩
          simp [transform, hmerge, exBind, hT, getKey, hMid, hsch]
        · cases ck
          · refine ⟨pyInsert (pyUpdate l rec) "type" (Value.s "textarea"), ?_, ?_⟩
            · simp [transform, hmerge, exBind, hT, getKey, hMid, hsch]
            · intro k hk
              rw [lookup_pyInsert, if_neg (fun h => hk h.symm)]
          · refine ⟨pyUpdate l rec, ?_, fun k _ => rfl⟩
            simp [transform, hmerge, exBind, hT, getKey, hMid, hsch]
      · refine ⟨pyUpdate l rec, ?_, fun k _ => rfl⟩
        simp [transform, hmerge, exBind, hT, ht.1.1, ht.1.2, ht.2, hs]
    · exact ⟨pyUpdate l rec, by simp [transform, hmerge, exBind, hT], fun k _ => rfl⟩
    · exact ⟨pyUpdate l rec, by simp [transform, hmerge, exBind, hT], fun k _ => rfl⟩
    · exact ⟨pyUpdate l rec, by simp [transform, hmerge, exBind, hT], fun k _ => rfl⟩
  obtain ⟨m, h1, h2⟩ := hmain
  refine ⟨m, h1, h2, ?_, ?_⟩
  · intro k v hk hv
    rw [h2 k hk]
    exact lookup_pyUpdate_some _ hnd hv
  · intro k hk hn
    rw [h2 k hk]
    exact lookup_pyUpdate_none _ hn

/-- C1 witness: the amended theorem applied to the concrete example of
the claim. -/
theorem c1_amended_witness :
    ∃ m, transform 1 (fun _ => Option.none)
        [("x", [("label", Value.s "B"), ("help", Value.s "C")])]
        (Value.dict [("id", Value.s "x"), ("label", Value.s "A")]) true
          = Except.ok (Value.dict m) ∧
      (∀ k, k ≠ "type" →
        assocLookup m k = assocLookup
          (pyUpdate [("id", Value.s "x"), ("label", Value.s "A")]
            [("label", Value.s "B"), ("help", Value.s "C")]) k) ∧
      (∀ k v, k ≠ "type" →
        assocLookup [("label", Value.s "B"), ("help", Value.s "C")] k = some v →
        assocLookup m k = some v) ∧
      (∀ k, k ≠ "type" →
        assocLookup [("label", Value.s "B"), ("help", Value.s "C")] k = Option.none →
        assocLookup m k = assocLookup [("id", Value.s "x"), ("label", Value.s "A")] k) :=
  c1_amended 0 (fun _ => Option.none)
    [("x", [("label", Value.s "B"), ("help", Value.s "C")])]
    [("id", Value.s "x"), ("label", Value.s "A")]
    [("label", Value.s "B"), ("help", Value.s "C")]
    "x" true rfl rfl (by decide) rfl rfl

/-! C4: the DefaultsMap is merged before the container dispatch. -/

/-- C4 counterexample: a fieldset container node carrying `id: "x"` with
DefaultsMap `{x: {help: "H"}}` DOES receive the merged `help: "H"` key —
the defaults merge in `_transform_layout` happens before the node kind
is inspected, so it is not restricted to leaf FieldRef nodes. -/
theorem c4_counterexample :
    transform 2 (fun _ => Option.none) [("x", [("help", Value.s "H")])]
        (Value.dict [("type", Value.s "fieldset"), ("id", Value.s "x"),
                     ("label", Value.s "L"), ("controls", Value.list [])]) true
      = Except.ok (Value.dict [("type", Value.s "fieldset"), ("id", Value.s "x"),
                               ("label", Value.s "L"), ("controls", Value.list []),
                               ("help", Value.s "H")])
    ∧ assocLookup [("type", Value.s "fieldset"), ("id", Value.s "x"),
                   ("label", Value.s "L"), ("controls", Value.list []),
                   ("help", Value.s "H")] "help" = some (Value.s "H") :=
  ⟨rfl, rfl⟩

/-- C4 (amended): the DefaultsMap record is merged into EVERY mapping
node whose `id` is one of its keys, container nodes included: for a
fieldset/group container with such an id, the transformed container is
`layout.update(record)` with its `controls` replaced by their transform,
and every non-`controls` key of the record appears in the result with
the record's value.  (Containers built by the `fieldset`/`columns`
helpers carry no `id`, so they are unaffected in practice.) -/
theorem c4_amended (f : Nat) (sch : Schema) (fd : DefaultsMap) (l rec : Record)
    (i : String) (w : Bool) (c c' : Value)
    (hid : assocLookup l "id" = some (Value.s i))
    (hrec : assocLookup fd i = some rec)
    (hnd : (rec.map Prod.fst).Nodup)
    (ht : (assocLookup (pyUpdate l rec) "type").getD (Value.s "string") = Value.s "fieldset"
        ∨ (assocLookup (pyUpdate l rec) "type").getD (Value.s "string") = Value.s "group")
    (hc : assocLookup (pyUpdate l rec) "controls" = some c)
    (hcc : transform f sch fd c false = Except.ok c') :
    transform (f+1) sch fd (Value.dict l) w
      = Except.ok (Value.dict (pyInsert (pyUpdate l rec) "controls" c')) ∧
    (∀ k v, k ≠ "controls" → assocLookup rec k = some v →
      assocLookup (pyInsert (pyUpdate l rec) "controls" c') k = some v) := by
  have hmerge : mergeDefaults fd l = Except.ok (pyUpdate l rec) := by
    simp [mergeDefaults, hid, hrec]
  constructor
  · rcases ht with ht | ht <;>
      simp [transform, hmerge, exBind, ht, getKey, hc, hcc]
  · intro k v hk hv
    rw [lookup_pyInsert, if_neg (fun h => hk h.symm)]
    exact lookup_pyUpdate_some _ hnd hv

/-- C4 witness: the amended theorem applied to the fieldset example. -/
theorem c4_amended_witness :
    transform 2 (fun _ => Option.none) [("x", [("help", Value.s "H")])]
        (Value.dict [("type", Value.s "fieldset"), ("id", Value.s "x"),
                     ("label", Value.s "L"), ("controls", Value.list [])]) true
      = Except.ok (Value.dict (pyInsert
          (pyUpdate [("type", Value.s "fieldset"), ("id", Value.s "x"),
                     ("label", Value.s "L"), ("controls", Value.list [])]
            [("help", Value.s "H")]) "controls" (Value.list []))) ∧
    (∀ k v, k ≠ "controls" → assocLookup [("help", Value.s "H")] k = some v →
      assocLookup (pyInsert
        (pyUpdate [("type", Value.s "fieldset"), ("id", Value.s "x"),
                   ("label", Value.s "L"), ("controls", Value.list [])]
          [("help", Value.s "H")]) "controls" (Value.list [])) k = some v) :=
  c4_amended 1 (fun _ => Option.none) [("x", [("help", Value.s "H")])]
    [("type", Value.s "fieldset"), ("id", Value.s "x"),
     ("label", Value.s "L"), ("controls", Value.list [])]
    [("help", Value.s "H")] "x" true (Value.list []) (Value.list [])
    rfl rfl (by decide) (Or.inl rfl) rfl rfl

/-! C8: the textarea upgrade of string-typed leaves. -/

/-- C8: for a leaf node of the default "string" kind (its `type` key
absent or explicitly `"string"`, its id not in the DefaultsMap), the
transformer upgrades `type` to `"textarea"` exactly when the schema maps
the id to a long-text column, and leaves the node unchanged — without
failing — when the schema has no column for the id. -/
theorem c8_textarea (f : Nat) (sch : Schema) (fd : DefaultsMap) (l : Record)
    (i : String) (w : Bool)
    (hid : assocLookup l "id" = some (Value.s i))
    (hfd : assocLookup fd i = Option.none)
    (ht : assocLookup l "type" = Option.none
        ∨ assocLookup l "type" = some (Value.s "string")) :
    (sch i = some ColKind.textField →
      transform (f+1) sch fd (Value.dict l) w
        = Except.ok (Value.dict (pyInsert l "type" (Value.s "textarea"))) ∧
      assocLookup (pyInsert l "type" (Value.s "textarea")) "type"
        = some (Value.s "textarea")) ∧
    (sch i = Option.none →
      transform (f+1) sch fd (Value.dict l) w = Except.ok (Value.dict l) ∧
      (assocLookup l "type").getD (Value.s "string") = Value.s "string") := by
  have hmerge : mergeDefaults fd l = Except.ok l := by
    simp [mergeDefaults, hid, hfd]
  have hT : (assocLookup l "type").getD (Value.s "string") = Value.s "string" := by
    rcases ht with ht | ht <;> simp [ht]
  constructor
  · intro hsch
    refine ⟨?_, ?_⟩
    · simp [transform, hmerge, exBind, hT, getKey, hid, hsch]
    · rw [lookup_pyInsert, if_pos rfl]
  · intro hsch
    refine ⟨?_, hT⟩
    simp [transform, hmerge, exBind, hT, getKey, hid, hsch]

/-- C8 witness: the theorem applied to a backing long-text column and to
a missing (virtual) column. -/
theorem c8_textarea_witness :
    (transform 1 (fun _ => some ColKind.textField) [] (Value.dict [("id", Value.s "a")]) true
        = Except.ok (Value.dict (pyInsert [("id", Value.s "a")] "type" (Value.s "textarea"))) ∧
      assocLookup (pyInsert [("id", Value.s "a")] "type" (Value.s "textarea")) "type"
        = some (Value.s "textarea")) ∧
    (transform 1 (fun _ => Option.none) [] (Value.dict [("id", Value.s "a")]) true
        = Except.ok (Value.dict [("id", Value.s "a")])) :=
  ⟨(c8_textarea 0 (fun _ => some ColKind.textField) [] [("id", Value.s "a")] "a" true
      rfl rfl (Or.inl rfl)).1 rfl,
   ((c8_textarea 0 (fun _ => Option.none) [] [("id", Value.s "a")] "a" true
      rfl rfl (Or.inl rfl)).2 rfl).1⟩

/-! C2: choice normalization in the Layout Decorator. -/

/-- C2 counterexample: decorating a leaf whose merged record has the
choices list `[{value: 1}]` — an entry lacking both `label` and
`display_name` — does NOT fail: it succeeds with `label: None`
(`x.get('label', None) or x.get('display_name', None)` is `None`).
No `MalformedChoice` error exists in the code. -/
theorem c2_counterexample :
    decorate 1 [("f", [("type", Value.s "choice"),
        ("choices", Value.list [Value.dict [("value", Value.n 1)]])])]
      (Value.dict [("id", Value.s "f")])
      = Except.ok (Value.dict
          [("type", Value.s "select"),
           ("choices", Value.list [Value.dict [("label", Value.none), ("value", Value.n 1)]]),
           ("id", Value.s "f")])
    ∧ (decorate 1 [("f", [("type", Value.s "choice"),
        ("choices", Value.list [Value.dict [("value", Value.n 1)]])])]
      (Value.dict [("id", Value.s "f")])).isOk = true :=
  ⟨rfl, rfl⟩

/-- Every choice entry that is a dict with a `value` key decorates
without raising, to its `reshapeChoice` image. -/
theorem exMap_choiceEntries (entries : List Value)
    (hent : ∀ e ∈ entries, ∃ d v, e = Value.dict d ∧ assocLookup d "value" = some v) :
    exMap decorateChoiceEntry entries = Except.ok (entries.map reshapeChoice) := by
  induction entries with
  | nil => rfl
  | cons e rest ih =>
      obtain ⟨d, v, he, hv⟩ := hent e (List.mem_cons_self e rest)
      subst he
      have hr := ih (fun x hx => hent x (List.mem_cons_of_mem _ hx))
      simp [exMap, exBind, decorateChoiceEntry, getKey, hv, hr, reshapeChoice]

/-- C2 (amended): for a decorated leaf whose merged record contains a
non-empty choices list of entries each carrying a `value` key, every
entry is reshaped to `{label, value}` where label is the entry's `label`
field if present AND truthy, else its `display_name` field; an entry
lacking both simply gets `label: None` — decoration succeeds and no
`MalformedChoice` failure occurs. -/
theorem c2_amended (f : Nat) (fi : Fields) (l info : Record) (i : String)
    (entries : List Value) (tv : Value)
    (hcont : decorContainer ((assocLookup l "type").getD Value.none) = false)
    (hid : assocLookup l "id" = some (Value.s i))
    (hinfo : assocLookup fi i = some info)
    (htv : assocLookup (pyUpdate info l) "type" = some tv)
    (hch : assocLookup (selectRewrite (pyUpdate info l) tv) "choices"
        = some (Value.list entries))
    (hne : entries ≠ [])
    (hent : ∀ e ∈ entries, ∃ d v, e = Value.dict d ∧ assocLookup d "value" = some v) :
    decorate (f+1) fi (Value.dict l)
      = Except.ok (Value.dict (pyInsert (selectRewrite (pyUpdate info l) tv) "choices"
          (Value.list (entries.map reshapeChoice)))) := by
  have hxm := exMap_choiceEntries entries hent
  have hemp : entries.isEmpty = false := by
    cases entries with
    | nil => exact absurd rfl hne
    | cons a rest => rfl
  simp [decorate, hcont, exBind, getKey, hid, hinfo, htv, hch, pyTruthy, hemp, hxm]

/-- C2 witness: the amended theorem applied to the claim's example
`[{value: 1, display_name: "One"}]`, which decorates to
`[{label: "One", value: 1}]`. -/
theorem c2_amended_witness :
    decorate 1 [("f", [("type", Value.s "choice"),
        ("choices", Value.list [Value.dict [("value", Value.n 1),
                                            ("display_name", Value.s "One")]])])]
      (Value.dict [("id", Value.s "f")])
      = Except.ok (Value.dict (pyInsert
          (selectRewrite
            (pyUpdate [("type", Value.s "choice"),
              ("choices", Value.list [Value.dict [("value", Value.n 1),
                                                  ("display_name", Value.s "One")]])]
              [("id", Value.s "f")])
            (Value.s "choice")) "choices"
          (Value.list ([Value.dict [("value", Value.n 1),
                                    ("display_name", Value.s "One")]].map reshapeChoice)))) :=
  c2_amended 0
    [("f", [("type", Value.s "choice"),
        ("choices", Value.list [Value.dict [("value", Value.n 1),
                                            ("display_name", Value.s "One")]])])]
    [("id", Value.s "f")]
    [("type", Value.s "choice"),
     ("choices", Value.list [Value.dict [("value", Value.n 1),
                                         ("display_name", Value.s "One")]])]
    "f"
    [Value.dict [("value", Value.n 1), ("display_name", Value.s "One")]]
    (Value.s "choice")
    rfl rfl rfl rfl rfl (by simp)
    (by
      intro e he
      simp only [List.mem_singleton] at he
      subst he
      exact ⟨[("value", Value.n 1), ("display_name", Value.s "One")], Value.n 1, rfl, rfl⟩)

/-! C10: key-lookup failures of the Layout Decorator. -/

/-- C10: decorating a leaf is not total — a leaf whose id is unknown to
the FieldMetadata mapping and that carries no `type` key fails with
`KeyError('type')` when `md['type']` is read (no default to "string" is
applied), and a non-container mapping without an `id` key fails with
`KeyError('id')` at the metadata lookup. -/
theorem c10_keyerrors :
    (∀ (f : Nat) (fi : Fields) (l : Record) (i : String),
      decorContainer ((assocLookup l "type").getD Value.none) = false →
      assocLookup l "id" = some (Value.s i) →
      assocLookup fi i = Option.none →
      assocLookup l "type" = Option.none →
      decorate (f+1) fi (Value.dict l) = Except.error (PyErr.keyError "type")) ∧
    (∀ (f : Nat) (fi : Fields) (l : Record),
      decorContainer ((assocLookup l "type").getD Value.none) = false →
      assocLookup l "id" = Option.none →
      decorate (f+1) fi (Value.dict l) = Except.error (PyErr.keyError "id")) := by
  constructor
  · intro f fi l i hcont hid hmiss htype
    have hmd : assocLookup (pyUpdate ([] : Record) l) "type" = Option.none := by
      rw [lookup_pyUpdate_none _ htype]; rfl
    simp [decorate, hcont, exBind, getKey, hid, hmiss, hmd]
  · intro f fi l hcont hid
    simp [decorate, hcont, exBind, getKey, hid]

/-- C10 witness: both failure modes at concrete leaves. -/
theorem c10_keyerrors_witness :
    decorate 1 [] (Value.dict [("id", Value.s "zz"), ("label", Value.s "L")])
        = Except.error (PyErr.keyError "type") ∧
    decorate 1 [] (Value.dict [("label", Value.s "L")])
        = Except.error (PyErr.keyError "id") :=
  ⟨c10_keyerrors.1 0 [] [("id", Value.s "zz"), ("label", Value.s "L")] "zz"
      rfl rfl rfl rfl,
   c10_keyerrors.2 0 [] [("label", Value.s "L")] rfl rfl⟩

/-! C3: title computation. -/

/-- C3: evidence of the title-selection bug in `_get_form_title`.  With a
per-identifier title `{simple: {create: "Per create", edit: "Per edit"}}`
configured AND a global title, requesting form "simple" with an instance
returns the GLOBAL edit title, not the per-identifier one: the code
computes the per-identifier title into a local, then subscripts
`self.form_title` instead.  Moreover a fixed-string global title is
subscripted with `'edit'`/`'create'` and raises `TypeError`, so a
"fixed string" title cannot be used at all. -/
theorem c3_title_bug :
    getFormTitle
      { form_layout := Value.none
        form_title := Value.dict [("create", Value.s "Global create"),
                                  ("edit", Value.s "Global edit")]
        form_defaults := []
        form_layouts := []
        form_titles := [("simple", Value.dict [("create", Value.s "Per create"),
                                               ("edit", Value.s "Per edit")])]
        form_defaults_map := []
        linked_forms := [] }
      (Value.b true) "simple" "X"
      = Except.ok (Value.s "Global edit")
    ∧ Value.s "Global edit" ≠ Value.s "Per edit"
    ∧ getFormTitle
      { form_layout := Value.none
        form_title := Value.s "Fixed title"
        form_defaults := []
        form_layouts := []
        form_titles := []
        form_defaults_map := []
        linked_forms := [] }
      (Value.b true) "" "X"
      = Except.error PyErr.typeError
    ∧ getFormTitle
      { form_layout := Value.none
        form_title := Value.none
        form_defaults := []
        form_layouts := []
        form_titles := []
        form_defaults_map := []
        linked_forms := [] }
      (Value.b true) "" "Invoice"
      = Except.ok (Value.s "Editing Invoice") := by
  refine ⟨rfl, ?_, rfl, rfl⟩
  simp

/-! C5: the 404 taxonomy of form-identifier lookup. -/

/-- C5: for a non-empty form identifier that is not a linked form, the
assembler raises `Http404` (surfaced as an HTTP 404 with the message
shown) — with the "not configured" message when the form-layouts table
is empty/absent, and with the "not found" message when the table exists
but lacks the identifier. -/
theorem c5_error_taxonomy (fuel : Nat) (sch : Schema) (routes : String → Option String)
    (cfg : Cfg) (fields : Fields) (vn requestPath : String)
    (gp dp : String → Option Value) (hi : Value) (form_name base_path : String)
    (hne : form_name ≠ "")
    (hnl : assocLookup cfg.linked_forms form_name = Option.none) :
    (cfg.form_layouts = [] →
      getFormMetadata fuel sch routes cfg fields vn requestPath gp dp hi form_name base_path
        = Outcome.http404
            "Form layouts not configured. Please add form_layouts attribute on the viewset class") ∧
    (cfg.form_layouts ≠ [] → assocLookup cfg.form_layouts form_name = Option.none →
      getFormMetadata fuel sch routes cfg fields vn requestPath gp dp hi form_name base_path
        = Outcome.http404 ("Form with name " ++ form_name ++ " not found")) := by
  constructor
  · intro hemp
    simp [getFormMetadata, hne, hnl, hemp]
  · intro hnemp hmiss
    have hempty : cfg.form_layouts.isEmpty = false := by
      cases h : cfg.form_layouts with
      | nil => exact absurd h hnemp
      | cons a rest => rfl
    simp [getFormMetadata, hne, hnl, hempty, hmiss]

/-- C5 witness: both 404s at a concrete identifier "zzz". -/
theorem c5_error_taxonomy_witness :
    getFormMetadata 3 (fun _ => Option.none) (fun _ => Option.none)
      { form_layout := Value.none, form_title := Value.none, form_defaults := []
        form_layouts := [], form_titles := [], form_defaults_map := []
        linked_forms := [] }
      [] "Book" "/api/books/form/zzz" (fun _ => Option.none) (fun _ => Option.none)
      (Value.b false) "zzz" "/api/books/"
      = Outcome.http404
          "Form layouts not configured. Please add form_layouts attribute on the viewset class" ∧
    getFormMetadata 3 (fun _ => Option.none) (fun _ => Option.none)
      { form_layout := Value.none, form_title := Value.none, form_defaults := []
        form_layouts := [("simple", Value.none)], form_titles := []
        form_defaults_map := [], linked_forms := [] }
      [] "Book" "/api/books/form/zzz" (fun _ => Option.none) (fun _ => Option.none)
      (Value.b false) "zzz" "/api/books/"
      = Outcome.http404 ("Form with name " ++ "zzz" ++ " not found") :=
  ⟨(c5_error_taxonomy 3 (fun _ => Option.none) (fun _ => Option.none)
      { form_layout := Value.none, form_title := Value.none, form_defaults := []
        form_layouts := [], form_titles := [], form_defaults_map := []
        linked_forms := [] }
      [] "Book" "/api/books/form/zzz" (fun _ => Option.none) (fun _ => Option.none)
      (Value.b false) "zzz" "/api/books/" (by decide) rfl).1 rfl,
   (c5_error_taxonomy 3 (fun _ => Option.none) (fun _ => Option.none)
      { form_layout := Value.none, form_title := Value.none, form_defaults := []
        form_layouts := [("simple", Value.none)], form_titles := []
        form_defaults_map := [], linked_forms := [] }
      [] "Book" "/api/books/form/zzz" (fun _ => Option.none) (fun _ => Option.none)
      (Value.b false) "zzz" "/api/books/" (by decide) rfl).2 (by simp) rfl⟩

/-! C6: linked-form delegation. -/

/-- C6: a form identifier present in the linked-forms table delegates
immediately: the outcome is the delegate invocation with the extracted
link id, the delegate's own form id, and a base path equal to the
request path with a trailing `/form` or `/form/<segment>` suffix
stripped (the embedded `re.sub` pattern) and `/<form-name>/` appended.
No NotConfigured/NotFound check runs and none of the host's own
layout/title/defaults configuration is consulted: the outcome is the
same for every configuration agreeing on that linked-forms entry, for
any fuel, schema, routes, field metadata and base path. -/
theorem c6_linked_delegation (fuel : Nat) (sch : Schema) (routes : String → Option String)
    (cfg : Cfg) (fields : Fields) (vn requestPath : String)
    (gp dp : String → Option Value) (hi : Value) (form_name base_path : String)
    (fd : LinkedForm)
    (hne : form_name ≠ "")
    (hl : assocLookup cfg.linked_forms form_name = some fd) :
    getFormMetadata fuel sch routes cfg fields vn requestPath gp dp hi form_name base_path
      = Outcome.delegated (linkIdOf fd gp dp) fd.form_id
          (linkedBasePath requestPath form_name) ∧
    (∀ (cfg2 : Cfg) (fuel2 : Nat) (sch2 : Schema) (routes2 : String → Option String)
        (fields2 : Fields) (vn2 base_path2 : String),
      assocLookup cfg2.linked_forms form_name = some fd →
      getFormMetadata fuel2 sch2 routes2 cfg2 fields2 vn2 requestPath gp dp hi
          form_name base_path2
        = getFormMetadata fuel sch routes cfg fields vn requestPath gp dp hi
            form_name base_path) := by
  have h1 : getFormMetadata fuel sch routes cfg fields vn requestPath gp dp hi
      form_name base_path
      = Outcome.delegated (linkIdOf fd gp dp) fd.form_id
          (linkedBasePath requestPath form_name) := by
    simp [getFormMetadata, hne, hl]
  refine ⟨h1, ?_⟩
  intro cfg2 fuel2 sch2 routes2 fields2 vn2 base_path2 hl2
  rw [h1]
  simp [getFormMetadata, hne, hl2]

/-- C6 witness: delegation applied at a concrete linked form "author"
(link id taken from the query parameters), with an empty form-layouts
table on the host — no 404 is raised and the base path is rewritten from
`/api/books/form/author` to `/api/books/author/`. -/
theorem c6_linked_delegation_witness :
    getFormMetadata 5 (fun _ => Option.none) (fun _ => Option.none)
      { form_layout := Value.none, form_title := Value.none, form_defaults := []
        form_layouts := [], form_titles := [], form_defaults_map := []
        linked_forms := [("author", { form_id := "detail", link_id := some "book_id" })] }
      [] "Book" "/api/books/form/author"
      (fun p => if p = "book_id" then some (Value.n 7) else Option.none)
      (fun _ => Option.none)
      (Value.b false) "author" "/api/books/"
      = Outcome.delegated (Value.n 7) "detail" "/api/books/author/" ∧
    getFormMetadata 9 (fun _ => some ColKind.textField) (fun _ => some "form")
      { form_layout := Value.s "x", form_title := Value.s "t"
        form_defaults := [("a", [("id", Value.s "b")])]
        form_layouts := [("other", Value.none)], form_titles := []
        form_defaults_map := []
        linked_forms := [("author", { form_id := "detail", link_id := some "book_id" })] }
      [("a", [])] "Line" "/api/books/form/author"
      (fun p => if p = "book_id" then some (Value.n 7) else Option.none)
      (fun _ => Option.none)
      (Value.b false) "author" "/elsewhere/"
      = Outcome.delegated (Value.n 7) "detail" "/api/books/author/" :=
  ⟨((c6_linked_delegation 5 (fun _ => Option.none) (fun _ => Option.none)
      { form_layout := Value.none, form_title := Value.none, form_defaults := []
        form_layouts := [], form_titles := [], form_defaults_map := []
        linked_forms := [("author", { form_id := "detail", link_id := some "book_id" })] }
      [] "Book" "/api/books/form/author"
      (fun p => if p = "book_id" then some (Value.n 7) else Option.none)
      (fun _ => Option.none) (Value.b false) "author" "/api/books/"
      { form_id := "detail", link_id := some "book_id" } (by decide) rfl).1).trans rfl,
   ((c6_linked_delegation 9 (fun _ => some ColKind.textField) (fun _ => some "form")
      { form_layout := Value.s "x", form_title := Value.s "t"
        form_defaults := [("a", [("id", Value.s "b")])]
        form_layouts := [("other", Value.none)], form_titles := []
        form_defaults_map := []
        linked_forms := [("author", { form_id := "detail", link_id := some "book_id" })] }
      [("a", [])] "Line" "/api/books/form/author"
      (fun p => if p = "book_id" then some (Value.n 7) else Option.none)
      (fun _ => Option.none) (Value.b false) "author" "/elsewhere/"
      { form_id := "detail", link_id := some "book_id" } (by decide) rfl).1).trans rfl⟩

/-! C7: the auto-generated layout. -/

theorem assocLookup_of_mem_nodup {α : Type} {l : List (String × α)}
    (hnd : (l.map Prod.fst).Nodup) {k : String} {v : α} (h : (k, v) ∈ l) :
    assocLookup l k = some v := by
  induction l with
  | nil => cases h
  | cons kv rest ih =>
      simp only [List.map_cons, List.nodup_cons] at hnd
      rcases List.mem_cons.mp h with he | hm
      · subst he
        simp [assocLookup]
      · have hne : kv.1 ≠ k := by
          intro he
          exact hnd.1 (he ▸ (List.mem_map.mpr ⟨(k, v), hm, rfl⟩))
        simp [assocLookup, hne, ih hnd.2 hm]

theorem assocLookup_some_mem {α : Type} {l : List (String × α)} {k : String} {v : α}
    (h : assocLookup l k = some v) : (k, v) ∈ l := by
  induction l with
  | nil => cases h
  | cons kv rest ih =>
      obtain ⟨a, b⟩ := kv
      by_cases he : a = k
      · subst he
        simp only [assocLookup, if_pos rfl] at h
        cases h
        exact List.mem_cons_self _ _
      · simp only [assocLookup, he, if_false] at h
        exact List.mem_cons_of_mem _ (ih h)

/-- The auto-layout comprehension yields one `{id: name}` node per
non-read-only field, in order. -/
theorem synthGo_ok (fields : Fields) (hkeys : (fields.map Prod.fst).Nodup)
    (hro : ∀ p ∈ fields, ∃ v, assocLookup p.2 "read_only" = some v) :
    ∀ sub : Fields, (∀ p ∈ sub, p ∈ fields) →
    synthGo fields sub = Except.ok
      ((sub.filter
          (fun p => !pyTruthy ((assocLookup p.2 "read_only").getD Value.none))).map
        (fun p => Value.dict [("id", Value.s p.1)])) := by
  intro sub
  induction sub with
  | nil => intro _; rfl
  | cons p rest ih =>
      intro hsub
      obtain ⟨nm, info⟩ := p
      have hmem : (nm, info) ∈ fields := hsub _ (List.mem_cons_self _ _)
      have hlook : assocLookup fields nm = some info := assocLookup_of_mem_nodup hkeys hmem
      obtain ⟨v, hv⟩ := hro _ hmem
      have hr := ih (fun q hq => hsub q (List.mem_cons_of_mem _ hq))
      cases htr : pyTruthy v with
      | true => simp [synthGo, exBind, hlook, getKey, hv, hr, htr, List.filter_cons]
      | false => simp [synthGo, exBind, hlook, getKey, hv, hr, htr, List.filter_cons]

/-- Transforming a bare `{id: name}` node (with defaults that rebind
neither `id` nor `type`) succeeds and keeps the id. -/
theorem transform_idnode (f : Nat) (sch : Schema) (fd : DefaultsMap) (nm : String)
    (hfd : ∀ p ∈ fd, ∀ q ∈ p.2, q.1 ≠ "id" ∧ q.1 ≠ "type") :
    ∃ m, transform (f+1) sch fd (Value.dict [("id", Value.s nm)]) true
        = Except.ok (Value.dict m) ∧ assocLookup m "id" = some (Value.s nm) := by
  rcases hrec : assocLookup fd nm with _ | rec
  · have hmerge : mergeDefaults fd [("id", Value.s nm)]
        = Except.ok [("id", Value.s nm)] := by
      simp [mergeDefaults, assocLookup, hrec]
    rcases hsch : sch nm with _ | ck
    · exact ⟨[("id", Value.s nm)],
        by simp [transform, exBind, hmerge, getKey, assocLookup, hsch], rfl⟩
    · cases ck
      · refine ⟨pyInsert [("id", Value.s nm)] "type" (Value.s "textarea"), ?_, ?_⟩
        · simp [transform, exBind, hmerge, getKey, assocLookup, hsch]
        · rw [lookup_pyInsert, if_neg (by decide)]; rfl
      · exact ⟨[("id", Value.s nm)],
          by simp [transform, exBind, hmerge, getKey, assocLookup, hsch], rfl⟩
  · have hmem := assocLookup_some_mem hrec
    have hq := hfd _ hmem
    have hnid : assocLookup rec "id" = Option.none := by
      refine assocLookup_eq_none_of_not_mem ?_
      intro hmem2
      obtain ⟨q, hq2, he⟩ := List.mem_map.mp hmem2
      exact (hq q hq2).1 he
    have hntype : assocLookup rec "type" = Option.none := by
      refine assocLookup_eq_none_of_not_mem ?_
      intro hmem2
      obtain ⟨q, hq2, he⟩ := List.mem_map.mp hmem2
      exact (hq q hq2).2 he
    have hMid : assocLookup (pyUpdate [("id", Value.s nm)] rec) "id"
        = some (Value.s nm) := by
      rw [lookup_pyUpdate_none _ hnid]; rfl
    have hMtype : assocLookup (pyUpdate [("id", Value.s nm)] rec) "type"
        = Option.none := by
      rw [lookup_pyUpdate_none _ hntype]; rfl
    have hmerge : mergeDefaults fd [("id", Value.s nm)]
        = Except.ok (pyUpdate [("id", Value.s nm)] rec) := by
      simp [mergeDefaults, assocLookup, hrec]
    rcases hsch : sch nm with _ | ck
    · exact ⟨pyUpdate [("id", Value.s nm)] rec,
        by simp [transform, exBind, hmerge, hMtype, getKey, hMid, hsch], hMid⟩
    · cases ck
      · refine ⟨pyInsert (pyUpdate [("id", Value.s nm)] rec) "type" (Value.s "textarea"),
          ?_, ?_⟩
        · simp [transform, exBind, hmerge, hMtype, getKey, hMid, hsch]
        · rw [lookup_pyInsert, if_neg (by decide)]; exact hMid
      · exact ⟨pyUpdate [("id", Value.s nm)] rec,
          by simp [transform, exBind, hmerge, hMtype, getKey, hMid, hsch], hMid⟩

/-- Element-wise transformation of a list of `{id: name}` nodes
preserves the id sequence. -/
theorem exMap_transform_ids (f : Nat) (sch : Schema) (fd : DefaultsMap)
    (hfd : ∀ p ∈ fd, ∀ q ∈ p.2, q.1 ≠ "id" ∧ q.1 ≠ "type") :
    ∀ ps : List (String × Record),
    ∃ ys, exMap (fun v => transform (f+1) sch fd v true)
            (ps.map (fun p => Value.dict [("id", Value.s p.1)])) = Except.ok ys ∧
      ys.map nodeId = ps.map (fun p => some p.1) := by
  intro ps
  induction ps with
  | nil => exact ⟨[], rfl, rfl⟩
  | cons p rest ih =>
      obtain ⟨m, hm, hid⟩ := transform_idnode f sch fd p.1 hfd
      obtain ⟨ys, hys, hmap⟩ := ih
      refine ⟨Value.dict m :: ys, ?_, ?_⟩
      · simp [exMap, exBind, hm, hys]
      · simp [nodeId, hid, hmap]

/-- C7: when no raw layout is configured, the resolved layout is a list
with exactly one FieldRef per non-read-only FieldMetadata entry, in the
metadata's insertion order — read-only fields yield no node.  (The
defaults map is assumed not to rebind the structural `id`/`type` keys of
a node.) -/
theorem c7_autolayout (f : Nat) (sch : Schema) (cfg : Cfg) (fields : Fields)
    (hlay : cfg.form_layout = Value.none)
    (hkeys : (fields.map Prod.fst).Nodup)
    (hro : ∀ p ∈ fields, ∃ v, assocLookup p.2 "read_only" = some v)
    (hfd : ∀ p ∈ cfg.form_defaults, ∀ q ∈ p.2, q.1 ≠ "id" ∧ q.1 ≠ "type") :
    ∃ nodes, getFormLayout (f+2) sch cfg fields "" = Except.ok (Value.list nodes) ∧
      nodes.map nodeId
        = (fields.filter
            (fun p => !pyTruthy ((assocLookup p.2 "read_only").getD Value.none))).map
            (fun p => some p.1) := by
  have hsyn := synthGo_ok fields hkeys hro fields (fun p hp => hp)
  obtain ⟨ys, hys, hmap⟩ := exMap_transform_ids f sch cfg.form_defaults hfd
    (fields.filter
      (fun p => !pyTruthy ((assocLookup p.2 "read_only").getD Value.none)))
  refine ⟨ys, ?_, hmap⟩
  have hstep : getFormLayout (f + 2) sch cfg fields "" =
      exBind (exBind (synthGo fields fields) fun nodes => Except.ok (Value.list nodes))
        fun layout => transform (f + 2) sch cfg.form_defaults layout false := by
    simp [getFormLayout, exBind, hlay, pyTruthy]
  rw [hstep, hsyn]
  simp only [exBind]
  show transform ((f + 1) + 1) sch cfg.form_defaults _ false = _
  simp [transform, hys, exBind]

/-- C7 witness: the claim's example
`{a: {read_only: false}, b: {read_only: true}, c: {read_only: false}}`
with no configured layout. -/
theorem c7_autolayout_witness :
    ∃ nodes, getFormLayout 2 (fun _ => Option.none)
      { form_layout := Value.none, form_title := Value.none, form_defaults := []
        form_layouts := [], form_titles := [], form_defaults_map := []
        linked_forms := [] }
      [("a", [("read_only", Value.b false)]), ("b", [("read_only", Value.b true)]),
       ("c", [("read_only", Value.b false)])] ""
        = Except.ok (Value.list nodes) ∧
      nodes.map nodeId
        = ([("a", [("read_only", Value.b false)]), ("b", [("read_only", Value.b true)]),
            ("c", [("read_only", Value.b false)])].filter
            (fun p => !pyTruthy ((assocLookup p.2 "read_only").getD Value.none))).map
            (fun p => some p.1) :=
  c7_autolayout 0 (fun _ => Option.none)
    { form_layout := Value.none, form_title := Value.none, form_defaults := []
      form_layouts := [], form_titles := [], form_defaults_map := []
      linked_forms := [] }
    [("a", [("read_only", Value.b false)]), ("b", [("read_only", Value.b true)]),
     ("c", [("read_only", Value.b false)])]
    rfl (by decide)
    (by
      intro p hp
      simp only [List.mem_cons, List.not_mem_nil, or_false] at hp
      rcases hp with rfl | rfl | rfl
      · exact ⟨Value.b false, rfl⟩
      · exact ⟨Value.b true, rfl⟩
      · exact ⟨Value.b false, rfl⟩)
    (by intro p hp; cases hp)

/-! C9: lemmas about `camel` — its output never contains an underscore,
and it fixes exactly the underscore-free identifiers. -/

theorem asciiLower_ne_under {c : Char} (h : c ≠ '_') : asciiLower c ≠ '_' := by
  unfold asciiLower
  split <;> first | decide | exact h

theorem asciiUpper_ne_under {c : Char} (h : c ≠ '_') : asciiUpper c ≠ '_' := by
  unfold asciiUpper
  split <;> first | decide | exact h

theorem titleGo_not_mem_under : ∀ (cs : List Char) (b : Bool), '_' ∉ cs →
    '_' ∉ titleGo b cs := by
  intro cs
  induction cs with
  | nil => intro b _ hm; cases hm
  | cons c rest ih =>
      intro b h
      have hc : c ≠ '_' := by
        intro hce; subst hce; exact h (List.mem_cons_self _ _)
      have hr : '_' ∉ rest := fun hm => h (List.mem_cons_of_mem _ hm)
      simp only [titleGo]
      by_cases ha : c.isAlpha
      · rw [if_pos ha]
        intro hm
        rcases List.mem_cons.mp hm with he | hm2
        · cases b with
          | true => exact asciiLower_ne_under hc he.symm
          | false => exact asciiUpper_ne_under hc he.symm
        · exact ih true hr hm2
      · rw [if_neg ha]
        intro hm
        rcases List.mem_cons.mp hm with he | hm2
        · exact hc he.symm
        · exact ih false hr hm2

theorem splitUnd_not_mem_under : ∀ (cs : List Char), ∀ p ∈ splitUnd cs, '_' ∉ p := by
  intro cs
  induction cs with
  | nil =>
      intro p hp
      simp only [splitUnd, List.mem_singleton] at hp
      subst hp
      exact List.not_mem_nil _
  | cons c rest ih =>
      intro p hp
      simp only [splitUnd] at hp
      by_cases hc : c = '_'
      · rw [if_pos hc] at hp
        rcases List.mem_cons.mp hp with he | hm
        · subst he; exact List.not_mem_nil _
        · exact ih p hm
      · rw [if_neg hc] at hp
        rcases hsp : splitUnd rest with _ | ⟨p0, ps⟩
        · rw [hsp] at hp
          rcases List.mem_cons.mp hp with he | hm
          · subst he
            intro hm2
            rcases List.mem_cons.mp hm2 with he2 | hm3
            · exact hc he2.symm
            · exact List.not_mem_nil _ hm3
          · cases hm
        · rw [hsp] at hp
          rcases List.mem_cons.mp hp with he | hm
          · subst he
            intro hm2
            rcases List.mem_cons.mp hm2 with he2 | hm3
            · exact hc he2.symm
            · exact ih p0 (by rw [hsp]; exact List.mem_cons_self _ _) hm3
          · exact ih p (by rw [hsp]; exact List.mem_cons_of_mem _ hm)

theorem under_not_mem_camelL (cs : List Char) : '_' ∉ camelL cs := by
  by_cases h : '_' ∈ cs
  · simp only [camelL, if_pos h]
    rcases hsp : splitUnd cs with _ | ⟨first, others⟩
    · exact List.not_mem_nil _
    · intro hm
      rcases List.mem_append.mp hm with hm1 | hm2
      · obtain ⟨c, hc, he⟩ := List.mem_map.mp hm1
        have hcne : c ≠ '_' := by
          intro hce
          subst hce
          exact splitUnd_not_mem_under cs first
            (by rw [hsp]; exact List.mem_cons_self _ _) hc
        exact asciiLower_ne_under hcne he
      · obtain ⟨piece, hpiece, hin⟩ := List.mem_flatten.mp hm2
        obtain ⟨p, hp, he⟩ := List.mem_map.mp hpiece
        have hpno : '_' ∉ p := splitUnd_not_mem_under cs p
          (by rw [hsp]; exact List.mem_cons_of_mem _ hp)
        rw [← he] at hin
        exact titleGo_not_mem_under p false hpno hin
  · simp only [camelL, if_neg h]
    exact h

theorem camelS_eq_self_iff (k : String) : camelS k = k ↔ '_' ∉ k.data := by
  constructor
  · intro h hm
    have h2 : '_' ∈ (camelS k).data := by rw [h]; exact hm
    exact under_not_mem_camelL k.data h2
  · intro h
    show String.mk (camelL k.data) = k
    rw [camelL, if_neg h]

/-! C9: structural lemmas about the dict operations used by
`_convert_camel_case`. -/

theorem keys_assocUpdate {α : Type} (l : List (String × α)) (k : String) (v : α) :
    (assocUpdate l k v).map Prod.fst = l.map Prod.fst := by
  induction l with
  | nil => rfl
  | cons kv rest ih =>
      by_cases h : kv.1 = k
      · simp [assocUpdate, h]
      · simp [assocUpdate, h, ih]

theorem assocErase_sublist {α : Type} (l : List (String × α)) (k : String) :
    (assocErase l k).Sublist l := by
  induction l with
  | nil => exact List.Sublist.refl _
  | cons kv rest ih =>
      by_cases h : kv.1 = k
      · simp only [assocErase, h, if_pos rfl]
        exact List.sublist_cons_self _ _
      · simp only [assocErase, h, if_false]
        exact ih.cons₂ _

theorem nodup_keys_assocErase {α : Type} {l : List (String × α)}
    (h : (l.map Prod.fst).Nodup) (k : String) :
    ((assocErase l k).map Prod.fst).Nodup :=
  h.sublist ((assocErase_sublist l k).map Prod.fst)

theorem mem_keys_isSome {α : Type} {l : List (String × α)} {k : String}
    (h : k ∈ l.map Prod.fst) : (assocLookup l k).isSome := by
  induction l with
  | nil => cases h
  | cons kv rest ih =>
      by_cases he : kv.1 = k
      · simp [assocLookup, he]
      · simp only [List.map_cons, List.mem_cons] at h
        rcases h with h | h
        · exact absurd h.symm he
        · simp [assocLookup, he, ih h]

theorem nodup_keys_pyInsert {α : Type} {l : List (String × α)}
    (h : (l.map Prod.fst).Nodup) (k : String) (v : α) :
    ((pyInsert l k v).map Prod.fst).Nodup := by
  unfold pyInsert
  by_cases hp : (assocLookup l k).isSome
  · rw [if_pos hp, keys_assocUpdate]
    exact h
  · rw [if_neg hp]
    have hk : k ∉ l.map Prod.fst := fun hm => hp (mem_keys_isSome hm)
    simp [List.nodup_append, h, hk]

theorem mem_assocUpdate_strong {α : Type} {l : List (String × α)}
    (hnd : (l.map Prod.fst).Nodup) {kv : String × α} {k : String} {v : α}
    (h : kv ∈ assocUpdate l k v) : (kv ∈ l ∧ kv.1 ≠ k) ∨ kv = (k, v) := by
  induction l with
  | nil => cases h
  | cons p rest ih =>
      obtain ⟨k0, v0⟩ := p
      simp only [List.map_cons, List.nodup_cons] at hnd
      by_cases he : k0 = k
      · subst he
        simp only [assocUpdate, if_pos rfl] at h
        rcases List.mem_cons.mp h with he2 | hm
        · exact Or.inr he2
        · left
          refine ⟨List.mem_cons_of_mem _ hm, ?_⟩
          intro hke
          exact hnd.1 (hke ▸ List.mem_map_of_mem Prod.fst hm)
      · simp only [assocUpdate, he, if_false] at h
        rcases List.mem_cons.mp h with he2 | hm
        · subst he2
          exact Or.inl ⟨List.mem_cons_self _ _, he⟩
        · rcases ih hnd.2 hm with ⟨hm2, hne⟩ | he2
          · exact Or.inl ⟨List.mem_cons_of_mem _ hm2, hne⟩
          · exact Or.inr he2

theorem mem_assocErase_strong {α : Type} {l : List (String × α)}
    (hnd : (l.map Prod.fst).Nodup) {kv : String × α} {k : String}
    (h : kv ∈ assocErase l k) : kv ∈ l ∧ kv.1 ≠ k := by
  induction l with
  | nil => cases h
  | cons p rest ih =>
      obtain ⟨k0, v0⟩ := p
      simp only [List.map_cons, List.nodup_cons] at hnd
      by_cases he : k0 = k
      · subst he
        simp only [assocErase, if_pos rfl] at h
        refine ⟨List.mem_cons_of_mem _ h, ?_⟩
        intro hke
        exact hnd.1 (hke ▸ List.mem_map_of_mem Prod.fst h)
      · simp only [assocErase, he, if_false] at h
        rcases List.mem_cons.mp h with he2 | hm
        · subst he2
          exact ⟨List.mem_cons_self _ _, he⟩
        · obtain ⟨hm2, hne⟩ := ih hnd.2 hm
          exact ⟨List.mem_cons_of_mem _ hm2, hne⟩

theorem mem_pyInsert_strong {α : Type} {l : List (String × α)}
    (hnd : (l.map Prod.fst).Nodup) {kv : String × α} {k : String} {v : α}
    (h : kv ∈ pyInsert l k v) : (kv ∈ l ∧ kv.1 ≠ k) ∨ kv = (k, v) := by
  unfold pyInsert at h
  by_cases hp : (assocLookup l k).isSome
  · rw [if_pos hp] at h
    exact mem_assocUpdate_strong hnd h
  · rw [if_neg hp] at h
    rcases List.mem_append.mp h with hm | hm
    · left
      refine ⟨hm, ?_⟩
      intro hke
      exact hp (mem_keys_isSome (hke ▸ List.mem_map_of_mem Prod.fst hm))
    · exact Or.inr (List.mem_singleton.mp hm)

theorem assocUpdate_of_lookup {α : Type} {l : List (String × α)} {k : String} {v : α}
    (h : assocLookup l k = some v) : assocUpdate l k v = l := by
  induction l with
  | nil => rfl
  | cons p rest ih =>
      obtain ⟨k0, v0⟩ := p
      by_cases he : k0 = k
      · subst he
        simp only [assocLookup, if_pos] at h
        injection h with h
        subst h
        simp [assocUpdate]
      · simp only [assocLookup, he, if_false] at h
        simp [assocUpdate, he, ih h]

theorem pyInsert_of_lookup {α : Type} {l : List (String × α)} {k : String} {v : α}
    (h : assocLookup l k = some v) : pyInsert l k v = l := by
  unfold pyInsert
  rw [h]
  simp [assocUpdate_of_lookup h]

/-! C9: the conversion pass leaves behind only underscore-free keys with
already-converted values, and such dicts are fixed by a second pass. -/

theorem convGo_invariant (f : Nat)
    (IH : ∀ v v', wfB f v = true → convert f v = Except.ok v' →
      convert f v' = Except.ok v') :
    ∀ (snap : List (String × Value)) (x : Record) (ow : List String) (r : Record),
      ((snap.map Prod.fst).Nodup) →
      ((x.map Prod.fst).Nodup) →
      (∀ kv ∈ snap, wfB f kv.2 = true) →
      (∀ kv ∈ x, ('_' ∉ kv.1.data ∧ convert f kv.2 = Except.ok kv.2) ∨
         (kv.1 ∈ snap.map Prod.fst ∧ kv.1 ∉ ow)) →
      convGo (convert f) snap x ow = Except.ok r →
      ((r.map Prod.fst).Nodup ∧
        ∀ kv ∈ r, '_' ∉ kv.1.data ∧ convert f kv.2 = Except.ok kv.2) := by
  intro snap
  induction snap with
  | nil =>
      intro x ow r _ hxnd _ hinv hrun
      simp only [convGo] at hrun
      injection hrun with hrun
      subst hrun
      refine ⟨hxnd, ?_⟩
      intro kv hkv
      rcases hinv kv hkv with hd | ⟨hmem, _⟩
      · exact hd
      · simp at hmem
  | cons p rest ih =>
      obtain ⟨k, v⟩ := p
      intro x ow r hsnd hxnd hwf hinv hrun
      simp only [convGo] at hrun
      rcases hcv : convert f v with err | v'
      · rw [hcv] at hrun; simp [exBind] at hrun
      · rw [hcv] at hrun
        simp only [exBind] at hrun
        have hwfv : wfB f v = true := hwf (k, v) (List.mem_cons_self _ _)
        have hv' : convert f v' = Except.ok v' := IH v v' hwfv hcv
        simp only [List.map_cons, List.nodup_cons] at hsnd
        have hwf' : ∀ q ∈ rest, wfB f q.2 = true :=
          fun q hq => hwf q (List.mem_cons_of_mem _ hq)
        by_cases hck : camelS k = k
        · rw [if_pos hck] at hrun
          by_cases how : k ∈ ow
          · rw [if_pos how] at hrun
            refine ih x ow r hsnd.2 hxnd hwf' ?_ hrun
            intro kv hkv
            rcases hinv kv hkv with hd | ⟨hmem, hnow⟩
            · exact Or.inl hd
            · right
              refine ⟨?_, hnow⟩
              have hmem2 : kv.1 = k ∨ kv.1 ∈ rest.map Prod.fst := by
                simpa using hmem
              rcases hmem2 with he | hm
              · exact absurd (he ▸ how) hnow
              · exact hm
          · rw [if_neg how] at hrun
            have hknou : '_' ∉ k.data := (camelS_eq_self_iff k).mp hck
            refine ih (pyInsert x k v') ow r hsnd.2
              (nodup_keys_pyInsert hxnd k v') hwf' ?_ hrun
            intro kv hkv
            rcases mem_pyInsert_strong hxnd hkv with ⟨hm, hne⟩ | he
            · rcases hinv kv hm with hd | ⟨hmem, hnow⟩
              · exact Or.inl hd
              · right
                refine ⟨?_, hnow⟩
                have hmem2 : kv.1 = k ∨ kv.1 ∈ rest.map Prod.fst := by
                  simpa using hmem
                rcases hmem2 with he2 | hm2
                · exact absurd he2 hne
                · exact hm2
            · subst he
              exact Or.inl ⟨hknou, hv'⟩
        · rw [if_neg hck] at hrun
          have hcknou : '_' ∉ (camelS k).data := under_not_mem_camelL k.data
          refine ih (pyInsert (assocErase x k) (camelS k) v') (camelS k :: ow) r hsnd.2
            (nodup_keys_pyInsert (nodup_keys_assocErase hxnd k) _ _) hwf' ?_ hrun
          intro kv hkv
          rcases mem_pyInsert_strong (nodup_keys_assocErase hxnd k) hkv with ⟨hm, hne⟩ | he
          · obtain ⟨hmx, hnek⟩ := mem_assocErase_strong hxnd hm
            rcases hinv kv hmx with hd | ⟨hmem, hnow⟩
            · exact Or.inl hd
            · right
              constructor
              · have hmem2 : kv.1 = k ∨ kv.1 ∈ rest.map Prod.fst := by
                  simpa using hmem
                rcases hmem2 with he2 | hm2
                · exact absurd he2 hnek
                · exact hm2
              · intro hmow
                rcases List.mem_cons.mp hmow with he2 | hm2
                · exact hne he2
                · exact hnow hm2
          · subst he
            exact Or.inl ⟨hcknou, hv'⟩

theorem convGo_id (f : Nat) :
    ∀ (snap : List (String × Value)) (x : Record),
      ((x.map Prod.fst).Nodup) →
      (∀ kv ∈ snap, '_' ∉ kv.1.data ∧ convert f kv.2 = Except.ok kv.2) →
      (∀ kv ∈ snap, kv ∈ x) →
      convGo (convert f) snap x [] = Except.ok x := by
  intro snap
  induction snap with
  | nil => intro x _ _ _; rfl
  | cons p rest ih =>
      obtain ⟨k, v⟩ := p
      intro x hxnd hdone hsub
      obtain ⟨hk, hv⟩ := hdone (k, v) (List.mem_cons_self _ _)
      have hck : camelS k = k := (camelS_eq_self_iff k).mpr hk
      have hlk : assocLookup x k = some v :=
        assocLookup_of_mem_nodup hxnd (hsub (k, v) (List.mem_cons_self _ _))
      simp only [convGo, hv, exBind]
      rw [if_pos hck, if_neg (List.not_mem_nil k), pyInsert_of_lookup hlk]
      exact ih x hxnd (fun q hq => hdone q (List.mem_cons_of_mem _ hq))
        (fun q hq => hsub q (List.mem_cons_of_mem _ hq))

theorem exMap_fix (f : Nat)
    (IH : ∀ v v', wfB f v = true → convert f v = Except.ok v' →
      convert f v' = Except.ok v') :
    ∀ (xs ys : List Value), (∀ x ∈ xs, wfB f x = true) →
      exMap (convert f) xs = Except.ok ys → exMap (convert f) ys = Except.ok ys := by
  intro xs
  induction xs with
  | nil =>
      intro ys _ h
      simp only [exMap] at h
      injection h with h
      subst h
      rfl
  | cons a rest ih =>
      intro ys hwf h
      simp only [exMap] at h
      rcases ha : convert f a with err | b
      · rw [ha] at h; simp [exBind] at h
      · rw [ha] at h
        simp only [exBind] at h
        rcases hr : exMap (convert f) rest with err | bs
        · rw [hr] at h; simp [exBind] at h
        · rw [hr] at h
          simp only [exBind] at h
          injection h with h
          subst h
          have hb : convert f b = Except.ok b :=
            IH a b (hwf a (List.mem_cons_self _ _)) ha
          have hbs := ih bs (fun q hq => hwf q (List.mem_cons_of_mem _ hq)) hr
          simp [exMap, exBind, hb, hbs]

theorem convert_fix : ∀ (f : Nat) (x y : Value), wfB f x = true →
    convert f x = Except.ok y → convert f y = Except.ok y := by
  intro f
  induction f with
  | zero =>
      intro x y h _
      simp [wfB] at h
  | succ f ihf =>
      intro x y hwf hconv
      cases x with
      | none =>
          simp only [convert] at hconv
          injection hconv with h
          subst h
          rfl
      | b bx =>
          simp only [convert] at hconv
          injection hconv with h
          subst h
          rfl
      | n nx =>
          simp only [convert] at hconv
          injection hconv with h
          subst h
          rfl
      | s sx =>
          simp only [convert] at hconv
          injection hconv with h
          subst h
          rfl
      | list xs =>
          simp only [convert] at hconv
          rcases hm : exMap (convert f) xs with err | ys
          · rw [hm] at hconv; simp [exBind] at hconv
          · rw [hm] at hconv
            simp only [exBind] at hconv
            injection hconv with h
            subst h
            have hwf' : ∀ q ∈ xs, wfB f q = true := by
              simp only [wfB, List.all_eq_true] at hwf
              exact hwf
            have hys := exMap_fix f ihf xs ys hwf' hm
            simp [convert, exBind, hys]
      | tuple xs =>
          simp only [convert] at hconv
          rcases hm : exMap (convert f) xs with err | ys
          · rw [hm] at hconv; simp [exBind] at hconv
          · rw [hm] at hconv
            simp only [exBind] at hconv
            injection hconv with h
            subst h
            have hwf' : ∀ q ∈ xs, wfB f q = true := by
              simp only [wfB, List.all_eq_true] at hwf
              exact hwf
            have hys := exMap_fix f ihf xs ys hwf' hm
            simp [convert, exBind, hys]
      | dict l =>
          simp only [convert] at hconv
          rcases hm : convGo (convert f) l l [] with err | r
          · rw [hm] at hconv; simp [exBind] at hconv
          · rw [hm] at hconv
            simp only [exBind] at hconv
            injection hconv with h
            subst h
            have hwf2 : ((l.map Prod.fst).Nodup) ∧ ∀ kv ∈ l, wfB f kv.2 = true := by
              simp only [wfB, Bool.and_eq_true, decide_eq_true_eq,
                List.all_eq_true] at hwf
              exact hwf
            obtain ⟨hrnd, hrdone⟩ := convGo_invariant f ihf l l [] r hwf2.1 hwf2.1 hwf2.2
              (fun kv hkv => Or.inr ⟨List.mem_map_of_mem Prod.fst hkv,
                List.not_mem_nil _⟩) hm
            have hid := convGo_id f r r hrnd hrdone (fun q hq => hq)
            simp [convert, exBind, hid]

/-- C9: the Naming Normalizer is idempotent on every well-formed layout
tree (nested mappings with unique keys, lists and tuples): a converted
tree converts to itself again; scalar values pass through unchanged, and
a key without an underscore is fixed by `camel`. -/
theorem c9_normalizer :
    (∀ (f : Nat) (x y : Value), wfB f x = true → convert f x = Except.ok y →
      convert f y = Except.ok y) ∧
    (∀ (f : Nat) (v : Value), isScalar v = true → convert (f+1) v = Except.ok v) ∧
    (∀ k : String, '_' ∉ k.data → camelS k = k) := by
  refine ⟨convert_fix, ?_, fun k h => (camelS_eq_self_iff k).mpr h⟩
  intro f v hv
  cases v <;> first | rfl | simp [isScalar] at hv

/-- C9 witness: normalizing `{a_b: 1}` and normalizing the result again,
a scalar, and an already-camel key. -/
theorem c9_normalizer_witness :
    (wfB 2 (Value.dict [("a_b", Value.n 1)]) = true ∧
     convert 2 (Value.dict [("a_b", Value.n 1)])
        = Except.ok (Value.dict [("aB", Value.n 1)])) ∧
    convert 2 (Value.dict [("aB", Value.n 1)])
        = Except.ok (Value.dict [("aB", Value.n 1)]) ∧
    convert 1 (Value.s "x_y") = Except.ok (Value.s "x_y") ∧
    camelS "aB" = "aB" :=
  ⟨⟨rfl, rfl⟩,
   c9_normalizer.1 2 (Value.dict [("a_b", Value.n 1)])
     (Value.dict [("aB", Value.n 1)]) rfl rfl,
   c9_normalizer.2.1 0 (Value.s "x_y") rfl,
   c9_normalizer.2.2 "aB" (by decide)⟩

end AngularDynamicForms
